import Mathlib

/-
Verification of the redblacktree package (a CLRS-style red-black tree
with pointer surgery) against its natural-language specification.

The embedding is a shallow model of the Go source `redblacktree.go`:
the mutable pointer graph becomes an explicit heap (`Nat` addresses to
`Node` records with left/right/parent pointer fields), every operation
is a state-passing function, runtime panics (nil dereference, failed
type assertion) become the `Res.crash` outcome, and the source's
unbounded loops are bounded by an explicit fuel parameter (running out
gives the distinct `Res.nofuel` outcome, so a crash can never be
confused with insufficient fuel).
-/

namespace RBGo

/-- Runtime values as the tree observes them: the nil interface value,
integers, strings, booleans, the reference-like kinds that the key
validator rejects (channel, function, interface, map, pointer, slice),
and opaque struct values. -/
inductive GoValue : Type where
  | vnil
  | vint (n : Int)
  | vstring (s : String)
  | vbool (b : Bool)
  | vchan
  | vfunc
  | viface
  | vmap
  | vptr
  | vslice
  | vstruct (id : Nat)
deriving DecidableEq, Repr

/-- The two error values of the package: `ErrorKeyIsNil` and
`ErrorKeyDisallowed`. -/
inductive GoErr : Type where
  | keyIsNil
  | keyDisallowed
deriving DecidableEq, Repr

/-- Outcome of running a fragment of the translated program: normal
termination, a runtime panic (nil dereference or failed type
assertion), or exhaustion of the fuel bounding the source's loops. -/
inductive Res (α : Type) : Type where
  | ok (a : α)
  | crash
  | nofuel
deriving DecidableEq, Repr

def Res.bind {α β : Type} : Res α → (α → Res β) → Res β
  | .ok a, f => f a
  | .crash, _ => .crash
  | .nofuel, _ => .nofuel

instance : Monad Res where
  pure := Res.ok
  bind := Res.bind

/-- Go `type Color bool`; `BLACK` is `true`, `RED` is `false`. -/
abbrev Color : Type := Bool

def BLACK : Color := true

def RED : Color := false

/-- Go `type Direction byte` with constants `LEFT`, `RIGHT`, `NODIR`. -/
inductive Direction : Type where
  | LEFT
  | RIGHT
  | NODIR
deriving DecidableEq, Repr

/-- One heap node (Go struct `Node`): key, payload, color, and the three
pointer fields, a pointer being an optional heap address. -/
structure Node : Type where
  key : GoValue
  payload : GoValue
  color : Color
  left : Option Nat
  right : Option Nat
  parent : Option Nat
deriving DecidableEq, Repr

/-- The tree state: the root pointer, the heap of allocated nodes, and
the next fresh address (Go `Tree` plus the implicit allocator; the
comparator is passed to each operation separately). -/
structure Tree : Type where
  root : Option Nat
  heap : Nat → Option Node
  next : Nat

/-- Go `NewTree` (the comparator, `IntComparator`, is supplied at each
call site in this model). -/
def NewTree : Tree := { root := none, heap := fun _ => none, next := 0 }

/-- A comparator may crash: `IntComparator` panics on non-int input. -/
abbrev Cmp : Type := GoValue → GoValue → Res Int

/-- Go `IntComparator`: type-asserts the first argument to `int`, then
the second (a failed assertion panics, modelled by `crash`), then
compares. -/
def IntComparator : Cmp := fun o1 o2 =>
  match o1 with
  | .vint i1 =>
    match o2 with
    | .vint i2 => .ok (if i1 > i2 then 1 else if i1 < i2 then -1 else 0)
    | _ => .crash
  | _ => .crash

/-- Go `mustBeValidKey`: the literal nil is rejected with
`ErrorKeyIsNil`; the chan, func, interface, map, pointer and slice
kinds are rejected with `ErrorKeyDisallowed`; everything else passes. -/
def mustBeValidKey : GoValue → Option GoErr
  | .vnil => some .keyIsNil
  | .vchan => some .keyDisallowed
  | .vfunc => some .keyDisallowed
  | .viface => some .keyDisallowed
  | .vmap => some .keyDisallowed
  | .vptr => some .keyDisallowed
  | .vslice => some .keyDisallowed
  | _ => none

/-- Dereference a node pointer; a dangling address is a panic. -/
def readNode (t : Tree) (a : Nat) : Res Node :=
  match t.heap a with
  | some n => .ok n
  | none => .crash

/-- Overwrite the node stored at address `a`. -/
def writeNode (t : Tree) (a : Nat) (n : Node) : Tree :=
  { t with heap := fun q => if q = a then some n else t.heap q }

def setLeft (t : Tree) (a : Nat) (v : Option Nat) : Res Tree := do
  let n ← readNode t a
  pure (writeNode t a { n with left := v })

def setRight (t : Tree) (a : Nat) (v : Option Nat) : Res Tree := do
  let n ← readNode t a
  pure (writeNode t a { n with right := v })

def setParent (t : Tree) (a : Nat) (v : Option Nat) : Res Tree := do
  let n ← readNode t a
  pure (writeNode t a { n with parent := v })

def setColor (t : Tree) (a : Nat) (c : Color) : Res Tree := do
  let n ← readNode t a
  pure (writeNode t a { n with color := c })

def setPayload (t : Tree) (a : Nat) (p : GoValue) : Res Tree := do
  let n ← readNode t a
  pure (writeNode t a { n with payload := p })

/-- Go `isRed`: a nil pointer is not red; otherwise read the color. -/
def isRed (t : Tree) (a : Option Nat) : Res Bool :=
  match a with
  | none => .ok false
  | some ad => do
    let n ← readNode t ad
    pure (n.color == RED)

/-- Go `internalLookup`: one downward pass guided by the comparator,
reporting found/not-found together with the last visited parent and
the direction that was (or would have been) descended into. -/
def internalLookup (cmp : Cmp) :
    Nat → Tree → Option Nat → Option Nat → GoValue → Direction →
    Res (Bool × Option Nat × Direction)
  | 0, _, _, _, _, _ => .nofuel
  | fuel+1, t, parent, this, key, dir =>
    match this with
    | none => .ok (false, parent, dir)
    | some ta => do
      let n ← readNode t ta
      let c ← cmp key n.key
      if c = 0 then .ok (true, parent, dir)
      else if c < 0 then internalLookup cmp fuel t (some ta) n.left key .LEFT
      else internalLookup cmp fuel t (some ta) n.right key .RIGHT

/-- Go `GetParent`: validation failure is swallowed (not-found), an
empty tree is not-found, otherwise delegate to `internalLookup`. -/
def GetParent (cmp : Cmp) (fuel : Nat) (t : Tree) (key : GoValue) :
    Res (Bool × Option Nat × Direction) :=
  match mustBeValidKey key with
  | some _ => .ok (false, none, .NODIR)
  | none =>
    match t.root with
    | none => .ok (false, none, .NODIR)
    | some _ => internalLookup cmp fuel t none t.root key .NODIR

/-- Go `getNode`: convert the parent/direction reported by `GetParent`
back into a node pointer (the root when the parent is nil). -/
def getNode (cmp : Cmp) (fuel : Nat) (t : Tree) (key : GoValue) :
    Res (Bool × Option Nat) := do
  let (found, parent, dir) ← GetParent cmp fuel t key
  if found then
    match parent with
    | none => pure (true, t.root)
    | some pa => do
      let pn ← readNode t pa
      let node : Option Nat :=
        match dir with
        | .LEFT => pn.left
        | .RIGHT => pn.right
        | .NODIR => none
      match node with
      | some na => pure (true, some na)
      | none => pure (false, none)
  else pure (false, none)

/-- Go `Get`: a validation failure reports `(false, nil)`; otherwise
resolve the node and return its payload. -/
def Get (cmp : Cmp) (fuel : Nat) (t : Tree) (key : GoValue) :
    Res (Bool × GoValue) :=
  match mustBeValidKey key with
  | some _ => .ok (false, .vnil)
  | none => do
    let (found, node) ← getNode cmp fuel t key
    if found then
      match node with
      | some na => do
        let n ← readNode t na
        pure (true, n.payload)
      | none => .crash
    else pure (false, .vnil)

/-- Go `Has`: a validation failure reports `false`; otherwise the found
flag of `internalLookup` from the root. -/
def Has (cmp : Cmp) (fuel : Nat) (t : Tree) (key : GoValue) : Res Bool :=
  match mustBeValidKey key with
  | some _ => .ok false
  | none => do
    let (found, _, _) ← internalLookup cmp fuel t none t.root key .NODIR
    pure found

/-- Go `getMinimum`: follow left children until none remains. -/
def getMinimum : Nat → Tree → Nat → Res Nat
  | 0, _, _ => .nofuel
  | fuel+1, t, x => do
    let n ← readNode t x
    match n.left with
    | some l => getMinimum fuel t l
    | none => pure x

/-- Go `RotateLeft`: nil pivot or nil right subtree is a no-op;
otherwise the CLRS pointer rewiring, each pointer being re-read from
the current heap at the program point where the source reads it. -/
def RotateLeft (t : Tree) (x : Option Nat) : Res Tree :=
  match x with
  | none => .ok t
  | some xa => do
    let xn ← readNode t xa
    match xn.right with
    | none => .ok t
    | some ya => do
      let yn ← readNode t ya
      let t ← setRight t xa yn.left
      let ynb ← readNode t ya
      let t ← match ynb.left with
        | some la => setParent t la (some xa)
        | none => pure t
      let xnb ← readNode t xa
      let t ← setParent t ya xnb.parent
      let xnc ← readNode t xa
      let t ← match xnc.parent with
        | none => pure { t with root := some ya }
        | some pa => do
          let pn ← readNode t pa
          if pn.left = some xa then setLeft t pa (some ya)
          else setRight t pa (some ya)
      let t ← setLeft t ya (some xa)
      setParent t xa (some ya)

/-- Go `RotateRight`: the mirror image of `RotateLeft`. -/
def RotateRight (t : Tree) (y : Option Nat) : Res Tree :=
  match y with
  | none => .ok t
  | some ya => do
    let yn ← readNode t ya
    match yn.left with
    | none => .ok t
    | some xa => do
      let xn ← readNode t xa
      let t ← setLeft t ya xn.right
      let xnb ← readNode t xa
      let t ← match xnb.right with
        | some ra => setParent t ra (some ya)
        | none => pure t
      let ynb ← readNode t ya
      let t ← setParent t xa ynb.parent
      let ync ← readNode t ya
      let t ← match ync.parent with
        | none => pure { t with root := some xa }
        | some pa => do
          let pn ← readNode t pa
          if pn.left = some ya then setLeft t pa (some xa)
          else setRight t pa (some xa)
      let t ← setRight t xa (some ya)
      setParent t ya (some xa)

/-- Loop of Go `fixupPut`. The loop exits when the parent is absent or
Black; a Red parent that is the root would make the grandparent
dereference panic (the source relies on the root always being Black). -/
def fixupPutLoop : Nat → Tree → Nat → Res Tree
  | 0, _, _ => .nofuel
  | fuel+1, t, z => do
    let zn ← readNode t z
    match zn.parent with
    | none => pure t
    | some pa => do
      let pn ← readNode t pa
      if pn.color = BLACK then pure t
      else
        match pn.parent with
        | none => .crash
        | some ga => do
          let gn ← readNode t ga
          if gn.left = some pa then do
            let y := gn.right
            let yr ← isRed t y
            if yr then do
              let t ← setColor t pa BLACK
              let t ← match y with
                | some yu => setColor t yu BLACK
                | none => .crash
              let t ← setColor t ga RED
              fixupPutLoop fuel t ga
            else do
              let zp ←
                if pn.right = some z then do
                  let t2 ← RotateLeft t (some pa)
                  pure (t2, pa)
                else pure (t, z)
              let t := zp.1
              let z := zp.2
              let znb ← readNode t z
              let t ← match znb.parent with
                | some pb => setColor t pb BLACK
                | none => .crash
              let t ← setColor t ga RED
              let t ← RotateRight t (some ga)
              fixupPutLoop fuel t z
          else do
            let y := gn.left
            let yr ← isRed t y
            if yr then do
              let t ← setColor t pa BLACK
              let t ← match y with
                | some yu => setColor t yu BLACK
                | none => .crash
              let t ← setColor t ga RED
              fixupPutLoop fuel t ga
            else do
              let zp ←
                if pn.left = some z then do
                  let t2 ← RotateRight t (some pa)
                  pure (t2, pa)
                else pure (t, z)
              let t := zp.1
              let z := zp.2
              let znb ← readNode t z
              let t ← match znb.parent with
                | some pb => setColor t pb BLACK
                | none => .crash
              let t ← setColor t ga RED
              let t ← RotateLeft t (some ga)
              fixupPutLoop fuel t z

/-- Go `fixupPut`: run the loop, then unconditionally force the root
Black. -/
def fixupPut (fuel : Nat) (t : Tree) (z : Nat) : Res Tree := do
  let t ← fixupPutLoop fuel t z
  match t.root with
  | some r => setColor t r BLACK
  | none => .crash

/-- Go `Put`: validate the key (propagating the error), create a Black
root when the tree is empty (note: without storing the payload, as in
the source), overwrite the payload in place when the key is found, and
otherwise link a new Red leaf and run the insertion fixup. -/
def Put (cmp : Cmp) (fuel : Nat) (t : Tree) (key data : GoValue) :
    Res (Option GoErr × Tree) :=
  match mustBeValidKey key with
  | some e => .ok (some e, t)
  | none =>
    match t.root with
    | none =>
      let n : Node :=
        { key := key, payload := .vnil, color := BLACK,
          left := none, right := none, parent := none }
      .ok (none,
        { root := some t.next,
          heap := fun q => if q = t.next then some n else t.heap q,
          next := t.next + 1 })
    | some _ => do
      let (found, parent, dir) ← internalLookup cmp fuel t none t.root key .NODIR
      if found then
        match parent with
        | none =>
          match t.root with
          | some r => do
            let t ← setPayload t r data
            pure (none, t)
          | none => .crash
        | some pa => do
          let pn ← readNode t pa
          match dir with
          | .LEFT =>
            match pn.left with
            | some la => do
              let t ← setPayload t la data
              pure (none, t)
            | none => .crash
          | .RIGHT =>
            match pn.right with
            | some ra => do
              let t ← setPayload t ra data
              pure (none, t)
            | none => .crash
          | .NODIR => pure (none, t)
      else
        match parent with
        | none => pure (none, t)
        | some pa => do
          let addr := t.next
          let n : Node :=
            { key := key, payload := data, color := RED,
              left := none, right := none, parent := some pa }
          let t1 : Tree :=
            { root := t.root,
              heap := fun q => if q = addr then some n else t.heap q,
              next := t.next + 1 }
          let t2 ← match dir with
            | .LEFT => setLeft t1 pa (some addr)
            | .RIGHT => setRight t1 pa (some addr)
            | .NODIR => pure t1
          let t3 ← fixupPut fuel t2 addr
          pure (none, t3)

/-- Go `transplant`: replace `u`'s position (root or parent slot) with
`v`, updating `v`'s parent pointer when `v` is present. -/
def transplant (t : Tree) (u : Nat) (v : Option Nat) : Res Tree := do
  let un ← readNode t u
  let t ← match un.parent with
    | none => pure { t with root := v }
    | some pa => do
      let pn ← readNode t pa
      if pn.left = some u then setLeft t pa v else setRight t pa v
  match v with
  | some va => do
    let unb ← readNode t u
    setParent t va unb.parent
  | none => pure t

/-- Loop of Go `fixupDelete`, returning the final tree together with
the node the trailing `x.color = BLACK` is applied to. A missing
switch case (corrupt links) loops forever in the source, which the
model renders as running out of fuel; `x = x.parent` reaching a nil
parent, or `x = t.root` with a nil root, makes the next dereference of
`x` panic, rendered as `crash`. -/
def fixupDeleteLoop : Nat → Tree → Nat → Res (Tree × Nat)
  | 0, _, _ => .nofuel
  | fuel+1, t, x => do
    if t.root = some x then pure (t, x)
    else do
      let xn ← readNode t x
      if xn.color = RED then pure (t, x)
      else
        match xn.parent with
        | none => .crash
        | some pa => do
          let pn ← readNode t pa
          if pn.right = some x then do
            let w := pn.left
            let wr ← isRed t w
            let tw ←
              if wr then do
                let t ← match w with
                  | some wa => setColor t wa BLACK
                  | none => .crash
                let xn1 ← readNode t x
                let t ← match xn1.parent with
                  | some p1 => setColor t p1 RED
                  | none => .crash
                let xn2 ← readNode t x
                let t ← RotateRight t xn2.parent
                let xn3 ← readNode t x
                let w2 ← match xn3.parent with
                  | some p3 => do
                    let pn3 ← readNode t p3
                    pure pn3.left
                  | none => (.crash : Res (Option Nat))
                pure (t, w2)
              else pure (t, w)
            let t := tw.1
            match tw.2 with
            | none => fixupDeleteLoop fuel t x
            | some wa => do
              let wn ← readNode t wa
              let wlRed ← isRed t wn.left
              let wrRed ← isRed t wn.right
              let txw ←
                if !wlRed && !wrRed then do
                  let t ← setColor t wa RED
                  let xn4 ← readNode t x
                  match xn4.parent with
                  | some p4 => pure (t, p4, some wa)
                  | none => (.crash : Res (Tree × Nat × Option Nat))
                else if wrRed && !wlRed then do
                  let wn2 ← readNode t wa
                  let t ← match wn2.right with
                    | some wra => setColor t wra BLACK
                    | none => .crash
                  let t ← setColor t wa RED
                  let t ← RotateLeft t (some wa)
                  let xn5 ← readNode t x
                  let w2 ← match xn5.parent with
                    | some p5 => do
                      let pn5 ← readNode t p5
                      pure pn5.left
                    | none => (.crash : Res (Option Nat))
                  pure (t, x, w2)
                else pure (t, x, some wa)
              let t := txw.1
              let x := txw.2.1
              match txw.2.2 with
              | none => .crash
              | some wb => do
                let wbn ← readNode t wb
                let wblRed ← isRed t wbn.left
                if wblRed then do
                  let xn6 ← readNode t x
                  let pc ← match xn6.parent with
                    | some p6 => do
                      let pn6 ← readNode t p6
                      pure pn6.color
                    | none => (.crash : Res Color)
                  let t ← setColor t wb pc
                  let xn7 ← readNode t x
                  let t ← match xn7.parent with
                    | some p7 => setColor t p7 BLACK
                    | none => .crash
                  let wbn2 ← readNode t wb
                  let t ← match wbn2.left with
                    | some wbl => setColor t wbl BLACK
                    | none => .crash
                  let xn8 ← readNode t x
                  let t ← RotateRight t xn8.parent
                  match t.root with
                  | some r => fixupDeleteLoop fuel t r
                  | none => .crash
                else fixupDeleteLoop fuel t x
          else if pn.left = some x then do
            let w := pn.right
            let wr ← isRed t w
            let tw ←
              if wr then do
                let t ← match w with
                  | some wa => setColor t wa BLACK
                  | none => .crash
                let xn1 ← readNode t x
                let t ← match xn1.parent with
                  | some p1 => setColor t p1 RED
                  | none => .crash
                let xn2 ← readNode t x
                let t ← RotateLeft t xn2.parent
                let xn3 ← readNode t x
                let w2 ← match xn3.parent with
                  | some p3 => do
                    let pn3 ← readNode t p3
                    pure pn3.right
                  | none => (.crash : Res (Option Nat))
                pure (t, w2)
              else pure (t, w)
            let t := tw.1
            match tw.2 with
            | none => fixupDeleteLoop fuel t x
            | some wa => do
              let wn ← readNode t wa
              let wlRed ← isRed t wn.left
              let wrRed ← isRed t wn.right
              let txw ←
                if !wlRed && !wrRed then do
                  let t ← setColor t wa RED
                  let xn4 ← readNode t x
                  match xn4.parent with
                  | some p4 => pure (t, p4, some wa)
                  | none => (.crash : Res (Tree × Nat × Option Nat))
                else if wlRed && !wrRed then do
                  let wn2 ← readNode t wa
                  let t ← match wn2.left with
                    | some wla => setColor t wla BLACK
                    | none => .crash
                  let t ← setColor t wa RED
                  let t ← RotateRight t (some wa)
                  let xn5 ← readNode t x
                  let w2 ← match xn5.parent with
                    | some p5 => do
                      let pn5 ← readNode t p5
                      pure pn5.right
                    | none => (.crash : Res (Option Nat))
                  pure (t, x, w2)
                else pure (t, x, some wa)
              let t := txw.1
              let x := txw.2.1
              match txw.2.2 with
              | none => .crash
              | some wb => do
                let wbn ← readNode t wb
                let wbrRed ← isRed t wbn.right
                if wbrRed then do
                  let xn6 ← readNode t x
                  let pc ← match xn6.parent with
                    | some p6 => do
                      let pn6 ← readNode t p6
                      pure pn6.color
                    | none => (.crash : Res Color)
                  let t ← setColor t wb pc
                  let xn7 ← readNode t x
                  let t ← match xn7.parent with
                    | some p7 => setColor t p7 BLACK
                    | none => .crash
                  let wbn2 ← readNode t wb
                  let t ← match wbn2.right with
                    | some wbr => setColor t wbr BLACK
                    | none => .crash
                  let xn8 ← readNode t x
                  let t ← RotateLeft t xn8.parent
                  match t.root with
                  | some r => fixupDeleteLoop fuel t r
                  | none => .crash
                else fixupDeleteLoop fuel t x
          else fixupDeleteLoop fuel t x

/-- Go `fixupDelete`: return immediately on a nil starting node (the
source's early return), otherwise run the loop and color the final
node Black. -/
def fixupDelete (fuel : Nat) (t : Tree) (x : Option Nat) : Res Tree :=
  match x with
  | none => .ok t
  | some xa => do
    let tx ← fixupDeleteLoop fuel t xa
    setColor tx.1 tx.2 BLACK

/-- Go `Delete`: no-op when `Has` reports false; otherwise the CLRS
structural removal (transplant, in-order successor for a two-child
node), running the deletion fixup only when the removed color was
Black. -/
def Delete (cmp : Cmp) (fuel : Nat) (t : Tree) (key : GoValue) : Res Tree := do
  let has ← Has cmp fuel t key
  if has then do
    let (_, zOpt) ← getNode cmp fuel t key
    match zOpt with
    | none => .crash
    | some z => do
      let zn ← readNode t z
      if zn.left = none then do
        let x := zn.right
        let t ← transplant t z zn.right
        if zn.color = BLACK then fixupDelete fuel t x else pure t
      else if zn.right = none then do
        let x := zn.left
        let t ← transplant t z zn.left
        if zn.color = BLACK then fixupDelete fuel t x else pure t
      else
        match zn.right with
        | some zr => do
          let y ← getMinimum fuel t zr
          let yn ← readNode t y
          let yColor := yn.color
          let x := yn.right
          let t ←
            if yn.parent = some z then
              match x with
              | some xa => setParent t xa (some y)
              | none => pure t
            else do
              let t ← transplant t y yn.right
              let znb ← readNode t z
              let t ← setRight t y znb.right
              let ynb ← readNode t y
              match ynb.right with
              | some yra => setParent t yra (some y)
              | none => .crash
          let t ← transplant t z (some y)
          let znc ← readNode t z
          let t ← setLeft t y znc.left
          let ync ← readNode t y
          let t ← match ync.left with
            | some yla => setParent t yla (some y)
            | none => .crash
          let znd ← readNode t z
          let t ← setColor t y znd.color
          if yColor = BLACK then fixupDelete fuel t x else pure t
        | none => .crash
  else pure t

/-- Go `countingVisitor` recursion: left, count, right. -/
def countNodes : Nat → Tree → Option Nat → Res Nat
  | 0, _, _ => .nofuel
  | _+1, _, none => .ok 0
  | fuel+1, t, some a => do
    let n ← readNode t a
    let l ← countNodes fuel t n.left
    let r ← countNodes fuel t n.right
    pure (l + 1 + r)

/-- Go `Size`: walk the counting visitor from the root. -/
def Size (fuel : Nat) (t : Tree) : Res Nat := countNodes fuel t t.root

/-- Key rendering of Go `fmt.Sprintf` with verb d: decimal for ints;
any other value would render as a formatting error string, which no
claim depends on. -/
def goKeyString : GoValue → String
  | .vint n => toString n
  | _ => "%!d"

/-- Go `InorderVisitor` recursion: a dot for an absent node, otherwise
the parenthesized concatenation of left walk, key, right walk. -/
def inorder : Nat → Tree → Option Nat → Res String
  | 0, _, _ => .nofuel
  | _+1, _, none => .ok "."
  | fuel+1, t, some a => do
    let n ← readNode t a
    let l ← inorder fuel t n.left
    let r ← inorder fuel t n.right
    pure ("(" ++ l ++ goKeyString n.key ++ r ++ ")")

/-- The structural fingerprint: the in-order visitor run from the root. -/
def fingerprint (fuel : Nat) (t : Tree) : Res String := inorder fuel t t.root

/-- Spec invariant 4 (black-height uniformity), as a checker: an absent
child counts as one Black node; a present node requires both subtrees
uniform with equal black-heights. The result `ok (some h)` is the
black-height, `ok none` reports a violation. -/
def blackHeightOf : Nat → Tree → Option Nat → Res (Option Nat)
  | 0, _, _ => .nofuel
  | _+1, _, none => .ok (some 1)
  | fuel+1, t, some a => do
    let n ← readNode t a
    let l ← blackHeightOf fuel t n.left
    let r ← blackHeightOf fuel t n.right
    match l, r with
    | some hl, some hr =>
      if hl = hr then pure (some (hl + (if n.color = BLACK then 1 else 0)))
      else pure none
    | _, _ => pure none

/-- Run `Put` with `IntComparator` on an integer key, keeping the tree. -/
def putI (fuel : Nat) (k : Int) (p : String) (t : Tree) : Res Tree := do
  let (_, t2) ← Put IntComparator fuel t (.vint k) (.vstring p)
  pure t2

/-- Insert a list of integer keys in order, each with a string payload. -/
def putKeys (fuel : Nat) (ks : List Int) (t : Tree) : Res Tree :=
  match ks with
  | [] => .ok t
  | k :: rest => do
    let t2 ← putI fuel k (toString k) t
    putKeys fuel rest t2

/-- Everything of a node except its payload. -/
def shapeOf (n : Node) : GoValue × Color × Option Nat × Option Nat × Option Nat :=
  (n.key, n.color, n.left, n.right, n.parent)

/-- Two states with the same root and the same node shapes everywhere:
they can differ only in payloads. Lookup, the in-order fingerprint and
the node count cannot tell them apart. -/
def ShapeEq (t t2 : Tree) : Prop :=
  t.root = t2.root ∧ ∀ a, (t.heap a).map shapeOf = (t2.heap a).map shapeOf

/-- Extract the tree from a successful run (used to name concrete
states in closed statements). -/
def forceTree (r : Res Tree) : Tree :=
  match r with
  | .ok t => t
  | _ => NewTree

/-- A concrete three-node state, `((.5.)7(.10.))`: Put 7, 5, 10. -/
def tree3 : Tree := forceTree (putKeys 20 [7, 5, 10] NewTree)

/-- A concrete one-node state whose single key is the int 7. -/
def tree1 : Tree := forceTree (putKeys 20 [7] NewTree)

/-- The node Put allocates for an empty tree: key only, Black, no
payload (mirrors `&Node{key: key, color: BLACK}` in the source). -/
def rootNode (k : GoValue) : Node :=
  { key := k, payload := .vnil, color := BLACK,
    left := none, right := none, parent := none }

/-- The state after the first Put on the empty tree: a single node at
address 0. -/
def rootState (k : GoValue) : Tree :=
  { root := some 0,
    heap := fun q => if q = 0 then some (rootNode k) else none,
    next := 1 }

end RBGo

namespace RBGo

@[simp]
theorem Res.ok_bind {α β : Type} (a : α) (f : α → Res β) :
    (Res.ok a >>= f) = f a := rfl

@[simp]
theorem Res.crash_bind {α β : Type} (f : α → Res β) :
    ((Res.crash : Res α) >>= f) = Res.crash := rfl

@[simp]
theorem Res.nofuel_bind {α β : Type} (f : α → Res β) :
    ((Res.nofuel : Res α) >>= f) = Res.nofuel := rfl

@[simp]
theorem Res.pure_eq_ok {α : Type} (a : α) : (pure a : Res α) = Res.ok a := rfl

@[simp]
theorem heap_writeNode_same (t : Tree) (a : Nat) (n : Node) :
    (writeNode t a n).heap a = some n := by
  simp [writeNode]

theorem heap_writeNode_ne (t : Tree) (a b : Nat) (n : Node) (h : b ≠ a) :
    (writeNode t a n).heap b = t.heap b := by
  simp [writeNode, h]

@[simp]
theorem root_writeNode (t : Tree) (a : Nat) (n : Node) :
    (writeNode t a n).root = t.root := rfl

@[simp]
theorem next_writeNode (t : Tree) (a : Nat) (n : Node) :
    (writeNode t a n).next = t.next := rfl

@[simp]
theorem readNode_writeNode_same (t : Tree) (a : Nat) (n : Node) :
    readNode (writeNode t a n) a = .ok n := by
  simp [readNode]

theorem readNode_writeNode_ne (t : Tree) (a b : Nat) (n : Node) (h : b ≠ a) :
    readNode (writeNode t a n) b = readNode t b := by
  simp [readNode, heap_writeNode_ne, h]

theorem readNode_of_heap {t : Tree} {a : Nat} {n : Node} (h : t.heap a = some n) :
    readNode t a = .ok n := by
  simp [readNode, h]

/-- C3: an invalid key (nil, or of a channel / function / interface /
map / pointer / slice kind) makes Put return the corresponding error
(KeyIsNil for nil, KeyDisallowed otherwise) with the tree unchanged,
while Get, Has and GetParent swallow the failure: (false, nil), false,
and (false, nil, NODIR) respectively, for every state, comparator and
fuel. -/
theorem c3_invalid_keys (cmp : Cmp) (fuel : Nat) (t : Tree) (k p : GoValue)
    (e : GoErr) (h : mustBeValidKey k = some e) :
    Put cmp fuel t k p = .ok (some e, t) ∧
    Get cmp fuel t k = .ok (false, .vnil) ∧
    Has cmp fuel t k = .ok false ∧
    GetParent cmp fuel t k = .ok (false, none, .NODIR) ∧
    e = (if k = .vnil then GoErr.keyIsNil else GoErr.keyDisallowed) := by
  refine ⟨?_, ?_, ?_, ?_, ?_⟩
  · simp [Put, h]
  · simp [Get, h]
  · simp [Has, h]
  · simp [GetParent, h]
  · cases k <;> simp_all [mustBeValidKey]

/-- Witness for C3 at two concrete invalid keys: the nil key on the
empty tree and a pointer key on a one-node tree. -/
theorem c3_invalid_keys_witness :
    (Put IntComparator 5 NewTree .vnil (.vstring "x") = .ok (some .keyIsNil, NewTree) ∧
      Get IntComparator 5 NewTree .vnil = .ok (false, .vnil)) ∧
    (Put IntComparator 5 tree1 .vptr (.vstring "x") = .ok (some .keyDisallowed, tree1) ∧
      Has IntComparator 5 tree1 .vptr = .ok false) := by
  have h1 := c3_invalid_keys IntComparator 5 NewTree .vnil (.vstring "x") .keyIsNil rfl
  have h2 := c3_invalid_keys IntComparator 5 tree1 .vptr (.vstring "x") .keyDisallowed rfl
  exact ⟨⟨h1.1, h1.2.1⟩, ⟨h2.1, h2.2.2.1⟩⟩

/-- C9: Delete of a key the tree does not have (Has reports false,
which covers both absent valid keys and invalid keys, whose validation
failure Has swallows) returns the state unchanged — the very same
state, hence the same structural fingerprint and the same size — and
is not an error. -/
theorem c9_delete_absent_key_noop (cmp : Cmp) (fuel : Nat) (t : Tree)
    (k : GoValue) (h : Has cmp fuel t k = .ok false) :
    Delete cmp fuel t k = .ok t := by
  simp [Delete, h]

/-- Witness for C9: deleting the absent key 99 and the invalid pointer
key from the concrete three-node tree leaves it untouched. -/
theorem c9_delete_absent_key_noop_witness :
    Delete IntComparator 20 tree3 (.vint 99) = .ok tree3 ∧
    Delete IntComparator 20 tree3 .vptr = .ok tree3 := by
  exact ⟨c9_delete_absent_key_noop IntComparator 20 tree3 (.vint 99) rfl,
    c9_delete_absent_key_noop IntComparator 20 tree3 .vptr rfl⟩

/-- C1: the spec claims Put(k,p) then Get(k) returns (true, p) for every
tree state, but on the empty tree Put creates the root node without
storing the payload, so Get reports found with a nil payload. This
theorem evaluates the code at the failing input: from the empty tree,
Put(7,"payload7") succeeds (no error) and the following Get(7) returns
(true, nil) instead of (true, "payload7"). -/
theorem c1_round_trip_fails_on_empty_tree :
    (do
      let (e, t1) ← Put IntComparator 10 NewTree (.vint 7) (.vstring "payload7")
      let g ← Get IntComparator 10 t1 (.vint 7)
      pure (e, g) : Res (Option GoErr × Bool × GoValue)) =
    .ok (none, true, .vnil) := by
  rfl

/-- C2: the spec claims every Put/Delete sequence preserves the four
red-black invariants, but fixupDelete returns immediately on a nil
replacement node, so deleting the black leaf 1 from the tree built by
Put 1,2,3,4 skips the rebalance: the resulting tree (.2(.3(.4.)))
has black-height 1 on the root's left side and 2 on its right, and the
black-height-uniformity checker reports the violation (ok none). -/
theorem c2_black_height_violated_after_delete :
    (do
      let t ← putKeys 50 [1, 2, 3, 4] NewTree
      let t2 ← Delete IntComparator 50 t (.vint 1)
      let f ← fingerprint 50 t2
      let b ← blackHeightOf 50 t2 t2.root
      pure (f, b) : Res (String × Option Nat)) =
    .ok ("(.2(.3(.4.)))", none) := by
  rfl

/-- C5: on the tree with fingerprint ((.5.)7(.10.)) and size 3 built by
Put(7), Put(5), Put(10), Delete(7) (a two-child deletion via the
in-order successor 10) yields fingerprint ((.5.)10.) and size 2. -/
theorem c5_delete_two_child_node :
    (do
      let t ← putKeys 50 [7, 5, 10] NewTree
      let f1 ← fingerprint 50 t
      let s1 ← Size 50 t
      let t2 ← Delete IntComparator 50 t (.vint 7)
      let f2 ← fingerprint 50 t2
      let s2 ← Size 50 t2
      pure (f1, s1, f2, s2) : Res (String × Nat × String × Nat)) =
    .ok ("((.5.)7(.10.))", 3, "((.5.)10.)", 2) := by
  rfl

/-- C6: inserting 1..9 in ascending order into a fresh tree yields root
key 4 and in-order fingerprint (((.1.)2(.3.))4((.5.)6((.7.)8(.9.)))). -/
theorem c6_ascending_insertion_shape :
    (do
      let t ← putKeys 50 [1, 2, 3, 4, 5, 6, 7, 8, 9] NewTree
      let f ← fingerprint 50 t
      let k ← match t.root with
        | some r => do
          let n ← readNode t r
          pure n.key
        | none => (.crash : Res GoValue)
      pure (f, k) : Res (String × GoValue)) =
    .ok ("(((.1.)2(.3.))4((.5.)6((.7.)8(.9.))))", .vint 4) := by
  rfl

theorem IntComparator_crash_of_not_int (k v : GoValue)
    (h : ∀ m : Int, k ≠ .vint m) : IntComparator k v = .crash := by
  cases k with
  | vint m => exact absurd rfl (h m)
  | _ => rfl

/-- C10: with the default IntComparator, a valid but non-int key (for
example a string) on a non-empty tree reaches the comparator's failing
type assertion in every one of Get, Has, GetParent, Put and Delete,
which therefore panic instead of returning; on int keys the comparator
never takes that failing branch. -/
theorem c10_non_int_key_panics (t : Tree) (r : Nat) (n : Node)
    (k p : GoValue) (fuel : Nat)
    (hr : t.root = some r) (hn : t.heap r = some n)
    (hv : mustBeValidKey k = none) (hi : ∀ m : Int, k ≠ .vint m) :
    Get IntComparator (fuel+1) t k = .crash ∧
    Has IntComparator (fuel+1) t k = .crash ∧
    GetParent IntComparator (fuel+1) t k = .crash ∧
    Put IntComparator (fuel+1) t k p = .crash ∧
    Delete IntComparator (fuel+1) t k = .crash ∧
    (∀ i j : Int, ∃ c : Int, IntComparator (.vint i) (.vint j) = .ok c) := by
  have hcmp : ∀ v, IntComparator k v = .crash :=
    fun v => IntComparator_crash_of_not_int k v hi
  have hlook :
      internalLookup IntComparator (fuel+1) t none t.root k .NODIR = .crash := by
    rw [hr]
    simp [internalLookup, readNode_of_heap hn, hcmp]
  have hgp : GetParent IntComparator (fuel+1) t k = .crash := by
    simp [GetParent, hv, hr]
    rw [← hr]
    exact hlook
  have hhas : Has IntComparator (fuel+1) t k = .crash := by
    simp [Has, hv, hlook]
  refine ⟨?_, hhas, hgp, ?_, ?_, ?_⟩
  · simp [Get, hv, getNode, hgp]
  · simp [Put, hv, hr]
    rw [← hr]
    simp [hlook]
  · simp [Delete, hhas]
  · intro i j
    exact ⟨if i > j then 1 else if i < j then -1 else 0, rfl⟩

/-- Witness for C10: the string key "a" is valid, is not an int, and
panics all five operations on the concrete one-node tree. -/
theorem c10_non_int_key_panics_witness :
    tree1.root = some 0 ∧
    Get IntComparator 10 tree1 (.vstring "a") = .crash ∧
    Put IntComparator 10 tree1 (.vstring "a") (.vstring "x") = .crash ∧
    Delete IntComparator 10 tree1 (.vstring "a") = .crash := by
  have h := c10_non_int_key_panics tree1 0
    { key := .vint 7, payload := .vnil, color := BLACK,
      left := none, right := none, parent := none }
    (.vstring "a") (.vstring "x") 9 rfl rfl rfl (fun m => by simp)
  exact ⟨rfl, h.1, h.2.2.2.1, h.2.2.2.2.1⟩

/-- C4: a first Put of a valid key k (with any payload p) on the empty
tree creates a Black root node holding k but a nil payload, so the
following Get(k) reports found with payload nil; only a second Put of
the same key stores a payload on that node (Get then returns it). The
comparator is only assumed to report 0 on equal keys. -/
theorem c4_empty_tree_put_creates_payloadless_root (cmp : Cmp) (fuel : Nat)
    (k p p2 : GoValue) (hv : mustBeValidKey k = none) (hc : cmp k k = .ok 0) :
    Put cmp fuel NewTree k p = .ok (none, rootState k) ∧
    (rootState k).root = some 0 ∧
    (rootState k).heap 0 = some (rootNode k) ∧
    (rootNode k).payload = .vnil ∧
    (rootNode k).color = BLACK ∧
    Get cmp (fuel+1) (rootState k) k = .ok (true, .vnil) ∧
    ∃ t2, Put cmp (fuel+1) (rootState k) k p2 = .ok (none, t2) ∧
      Get cmp (fuel+1) t2 k = .ok (true, p2) := by
  refine ⟨?_, rfl, by simp [rootState], rfl, rfl, ?_, ?_⟩
  · simp [Put, hv, NewTree, rootState, rootNode]
  · simp [Get, hv, getNode, GetParent, internalLookup, rootState,
      readNode, rootNode, hc]
  · refine ⟨writeNode (rootState k) 0
      { key := k, payload := p2, color := BLACK,
        left := none, right := none, parent := none }, ?_, ?_⟩
    · simp [Put, hv, rootState, internalLookup, readNode, rootNode, hc,
        setPayload]
    · simp [Get, hv, getNode, GetParent, internalLookup, readNode,
        writeNode, rootState, rootNode, hc]

/-- Witness for C4 at the concrete key 7 with payloads "a" and "b". -/
theorem c4_empty_tree_put_creates_payloadless_root_witness :
    Put IntComparator 5 NewTree (.vint 7) (.vstring "a") =
      .ok (none, rootState (.vint 7)) ∧
    Get IntComparator 6 (rootState (.vint 7)) (.vint 7) = .ok (true, .vnil) ∧
    ∃ t2, Put IntComparator 6 (rootState (.vint 7)) (.vint 7) (.vstring "b") =
        .ok (none, t2) ∧
      Get IntComparator 6 t2 (.vint 7) = .ok (true, .vstring "b") := by
  have h := c4_empty_tree_put_creates_payloadless_root IntComparator 5
    (.vint 7) (.vstring "a") (.vstring "b") rfl rfl
  exact ⟨h.1, h.2.2.2.2.2.1, h.2.2.2.2.2.2⟩

theorem shapeOf_fields {n n2 : Node} (h : shapeOf n = shapeOf n2) :
    n.key = n2.key ∧ n.color = n2.color ∧ n.left = n2.left ∧
    n.right = n2.right ∧ n.parent = n2.parent := by
  simpa [shapeOf] using h

theorem ShapeEq.heap_none {t t2 : Tree} (h : ShapeEq t t2) {a : Nat}
    (ha : t.heap a = none) : t2.heap a = none := by
  have := h.2 a
  rw [ha] at this
  cases hb : t2.heap a <;> simp [hb] at this
  rfl

theorem ShapeEq.heap_some {t t2 : Tree} (h : ShapeEq t t2) {a : Nat} {n : Node}
    (ha : t.heap a = some n) :
    ∃ n2, t2.heap a = some n2 ∧ shapeOf n = shapeOf n2 := by
  have := h.2 a
  rw [ha] at this
  cases hb : t2.heap a with
  | none => rw [hb] at this; simp at this
  | some n2 => rw [hb] at this; simp at this; exact ⟨n2, rfl, this⟩

theorem internalLookup_shapeEq {t t2 : Tree} (h : ShapeEq t t2) (cmp : Cmp)
    (key : GoValue) :
    ∀ fuel parent this dir,
      internalLookup cmp fuel t2 parent this key dir =
      internalLookup cmp fuel t parent this key dir := by
  intro fuel
  induction fuel with
  | zero => intro _ _ _; rfl
  | succ fuel ih =>
    intro parent this dir
    cases this with
    | none => rfl
    | some ta =>
      cases ha : t.heap ta with
      | none =>
        simp [internalLookup, readNode, ha, h.heap_none ha]
      | some n =>
        obtain ⟨n2, ha2, hs⟩ := h.heap_some ha
        obtain ⟨hk, _, hl, hr, _⟩ := shapeOf_fields hs
        simp only [internalLookup, readNode, ha, ha2, Res.ok_bind]
        rw [← hk]
        cases cmp key n.key with
        | crash => rfl
        | nofuel => rfl
        | ok c =>
          simp only [Res.ok_bind]
          by_cases h0 : c = 0
          · simp [h0]
          · by_cases hlt : c < 0 <;> simp [h0, hlt, hl, hr, ih]

theorem inorder_shapeEq {t t2 : Tree} (h : ShapeEq t t2) :
    ∀ fuel a, inorder fuel t2 a = inorder fuel t a := by
  intro fuel
  induction fuel with
  | zero => intro _; rfl
  | succ fuel ih =>
    intro a
    cases a with
    | none => rfl
    | some ad =>
      cases ha : t.heap ad with
      | none => simp [inorder, readNode, ha, h.heap_none ha]
      | some n =>
        obtain ⟨n2, ha2, hs⟩ := h.heap_some ha
        obtain ⟨hk, _, hl, hr, _⟩ := shapeOf_fields hs
        simp [inorder, readNode, ha, ha2, ← hk, ← hl, ← hr, ih]

theorem countNodes_shapeEq {t t2 : Tree} (h : ShapeEq t t2) :
    ∀ fuel a, countNodes fuel t2 a = countNodes fuel t a := by
  intro fuel
  induction fuel with
  | zero => intro _; rfl
  | succ fuel ih =>
    intro a
    cases a with
    | none => rfl
    | some ad =>
      cases ha : t.heap ad with
      | none => simp [countNodes, readNode, ha, h.heap_none ha]
      | some n =>
        obtain ⟨n2, ha2, hs⟩ := h.heap_some ha
        obtain ⟨_, _, hl, hr, _⟩ := shapeOf_fields hs
        simp [countNodes, readNode, ha, ha2, ← hl, ← hr, ih]

theorem shapeEq_setPayload {t : Tree} {a : Nat} {n : Node}
    (ha : t.heap a = some n) (p : GoValue) :
    ShapeEq t (writeNode t a { n with payload := p }) := by
  refine ⟨rfl, fun q => ?_⟩
  by_cases hq : q = a
  · subst hq
    simp [writeNode, ha, shapeOf]
  · simp [writeNode, hq]

/-- A successful find reported by `internalLookup` pins down where the
found node sits: either it is the node the call started at (parent and
direction returned unchanged), or it is the child of the returned
parent on the returned side; in both cases the node exists in the heap
and the comparator reports 0 on its key. -/
theorem internalLookup_found (cmp : Cmp) (t : Tree) (key : GoValue) :
    ∀ fuel parent this dir pa da,
      internalLookup cmp fuel t parent this key dir = .ok (true, pa, da) →
      (pa = parent ∧ da = dir ∧
        ∃ a n, this = some a ∧ t.heap a = some n ∧ cmp key n.key = .ok 0) ∨
      (∃ pp pn a n, pa = some pp ∧ t.heap pp = some pn ∧
        ((da = .LEFT ∧ pn.left = some a) ∨ (da = .RIGHT ∧ pn.right = some a)) ∧
        t.heap a = some n ∧ cmp key n.key = .ok 0) := by
  intro fuel
  induction fuel with
  | zero => intro _ _ _ _ _ h; exact absurd h (by simp [internalLookup])
  | succ fuel ih =>
    intro parent this dir pa da h
    cases this with
    | none =>
      simp [internalLookup] at h
    | some ta =>
      cases ha : t.heap ta with
      | none => rw [internalLookup, readNode, ha] at h; exact absurd h (by simp)
      | some n =>
        rw [internalLookup, readNode, ha] at h
        simp only [Res.ok_bind] at h
        cases hc : cmp key n.key with
        | crash => rw [hc] at h; exact absurd h (by simp)
        | nofuel => rw [hc] at h; exact absurd h (by simp)
        | ok c =>
          rw [hc] at h
          simp only [Res.ok_bind] at h
          by_cases h0 : c = 0
          · rw [if_pos h0] at h
            injection h with h2
            injection h2 with hfound hrest
            injection hrest with hpa hda
            subst h0
            exact Or.inl ⟨hpa.symm, hda.symm, ta, n, rfl, ha, hc⟩
          · rw [if_neg h0] at h
            by_cases hlt : c < 0
            · rw [if_pos hlt] at h
              rcases ih (some ta) n.left .LEFT pa da h with
                ⟨hpa, hda, a, m, hthis, hm, hcm⟩ | hr
              · exact Or.inr ⟨ta, n, a, m, hpa, ha,
                  Or.inl ⟨hda, hthis ▸ rfl⟩, hm, hcm⟩
              · exact Or.inr hr
            · rw [if_neg hlt] at h
              rcases ih (some ta) n.right .RIGHT pa da h with
                ⟨hpa, hda, a, m, hthis, hm, hcm⟩ | hr
              · exact Or.inr ⟨ta, n, a, m, hpa, ha,
                  Or.inr ⟨hda, hthis ▸ rfl⟩, hm, hcm⟩
              · exact Or.inr hr

/-- C8: Put of a payload p2 under a valid key the tree already has
overwrites the payload in place: Put succeeds without error, Get then
returns (true, p2), and the structural fingerprint and the size are
unchanged at every fuel (the state differs from the old one only in
that one payload field, so no structural change and no fixup
happened). -/
theorem c8_overwrite_in_place (cmp : Cmp) (fuel : Nat) (t : Tree)
    (k p2 : GoValue) (hv : mustBeValidKey k = none)
    (hHas : Has cmp fuel t k = .ok true) :
    ∃ t2, Put cmp fuel t k p2 = .ok (none, t2) ∧
      Get cmp fuel t2 k = .ok (true, p2) ∧
      (∀ f, fingerprint f t2 = fingerprint f t) ∧
      (∀ f, Size f t2 = Size f t) := by
  simp only [Has, hv] at hHas
  rcases hr : internalLookup cmp fuel t none t.root k .NODIR with ⟨⟨found, pa, da⟩⟩ | _ | _ <;>
    rw [hr] at hHas <;> simp at hHas
  subst hHas
  have hl : internalLookup cmp fuel t none t.root k .NODIR = .ok (true, pa, da) := hr
  rcases internalLookup_found cmp t k fuel none t.root .NODIR pa da hl with
    ⟨hpa, hda, a, n, hroot, hn, hc⟩ |
    ⟨pp, pn, a, n, hpa, hpn, hside, hn, hc⟩
  · -- found at the node the top-level call started at: the root
    subst hpa
    subst hda
    rw [hroot] at hl
    have hsh := shapeEq_setPayload hn p2
    have hlook2 := internalLookup_shapeEq hsh cmp k fuel none (some a) .NODIR
    refine ⟨writeNode t a { n with payload := p2 }, ?_, ?_, ?_, ?_⟩
    · simp only [Put, hv, hroot, hl, Res.ok_bind, if_true, setPayload,
        readNode_of_heap hn]
      rfl
    · simp only [Get, getNode, GetParent, hv, root_writeNode, hroot,
        hlook2, hl, Res.ok_bind, readNode_writeNode_same]
      simp
    · intro f
      unfold fingerprint
      rw [root_writeNode, inorder_shapeEq hsh]
    · intro f
      unfold Size
      rw [root_writeNode, countNodes_shapeEq hsh]
  · -- found as a child of the reported parent
    subst hpa
    have hrootsome : ∃ r0, t.root = some r0 := by
      cases hroot : t.root with
      | some r0 => exact ⟨r0, rfl⟩
      | none =>
        rw [hroot] at hl
        cases fuel <;> simp [internalLookup] at hl
    obtain ⟨r0, hroot⟩ := hrootsome
    rw [hroot] at hl
    have hsh := shapeEq_setPayload hn p2
    have hlook2 := internalLookup_shapeEq hsh cmp k fuel none (some r0) .NODIR
    obtain ⟨pn2, hpn2, hshp⟩ := hsh.heap_some hpn
    obtain ⟨_, _, hl2, hr2, _⟩ := shapeOf_fields hshp
    rcases hside with ⟨hda, hchild⟩ | ⟨hda, hchild⟩ <;> subst hda
    · refine ⟨writeNode t a { n with payload := p2 }, ?_, ?_, ?_, ?_⟩
      · simp only [Put, hv, hroot, hl, Res.ok_bind, if_true,
          readNode_of_heap hpn, hchild, setPayload, readNode_of_heap hn]
        rfl
      · simp only [Get, getNode, GetParent, hv, root_writeNode, hroot,
          hlook2, hl, Res.ok_bind, readNode_of_heap hpn2, ← hl2, hchild,
          readNode_writeNode_same]
        simp
      · intro f
        unfold fingerprint
        rw [root_writeNode, inorder_shapeEq hsh]
      · intro f
        unfold Size
        rw [root_writeNode, countNodes_shapeEq hsh]
    · refine ⟨writeNode t a { n with payload := p2 }, ?_, ?_, ?_, ?_⟩
      · simp only [Put, hv, hroot, hl, Res.ok_bind, if_true,
          readNode_of_heap hpn, hchild, setPayload, readNode_of_heap hn]
        rfl
      · simp only [Get, getNode, GetParent, hv, root_writeNode, hroot,
          hlook2, hl, Res.ok_bind, readNode_of_heap hpn2, ← hr2, hchild,
          readNode_writeNode_same]
        simp
      · intro f
        unfold fingerprint
        rw [root_writeNode, inorder_shapeEq hsh]
      · intro f
        unfold Size
        rw [root_writeNode, countNodes_shapeEq hsh]

/-- Witness for C8: overwriting key 5 in the concrete three-node tree. -/
theorem c8_overwrite_in_place_witness :
    mustBeValidKey (.vint 5) = none ∧
    Has IntComparator 20 tree3 (.vint 5) = .ok true ∧
    ∃ t2, Put IntComparator 20 tree3 (.vint 5) (.vstring "q") = .ok (none, t2) ∧
      Get IntComparator 20 t2 (.vint 5) = .ok (true, .vstring "q") ∧
      (∀ f, fingerprint f t2 = fingerprint f tree3) ∧
      (∀ f, Size f t2 = Size f tree3) :=
  ⟨rfl, rfl,
    c8_overwrite_in_place IntComparator 20 tree3 (.vint 5) (.vstring "q") rfl rfl⟩

theorem Tree.eq_of_fields {t u : Tree} (h1 : t.root = u.root)
    (h2 : ∀ q, t.heap q = u.heap q) (h3 : t.next = u.next) : t = u := by
  cases t
  cases u
  simp_all
  exact funext h2

set_option maxHeartbeats 1600000 in
/-- C7: for a node x with a right child y (the hypotheses say exactly
that x and y are nodes of the tree: the child, parent and root links
touching them are mutually consistent and the addresses involved are
distinct), RotateLeft(x) followed by RotateRight on the resulting
pivot y restores the very state the tree started in — in particular
the original in-order-visitor fingerprint, at every fuel. -/
theorem c7_rotate_left_then_right_restores (t : Tree) (x y : Nat)
    (xn yn : Node)
    (hx : t.heap x = some xn) (hxr : xn.right = some y)
    (hy : t.heap y = some yn) (hyparent : yn.parent = some x)
    (nxy : x ≠ y)
    (hbhyp : ∀ bb, yn.left = some bb → bb ≠ x ∧ bb ≠ y ∧
      (∀ pq, xn.parent = some pq → bb ≠ pq) ∧
      ∃ bn, t.heap bb = some bn ∧ bn.parent = some y)
    (hphyp : ∀ pq, xn.parent = some pq → pq ≠ x ∧ pq ≠ y ∧
      ∃ pn, t.heap pq = some pn ∧
        (pn.left = some x ∨
          (pn.left ≠ some x ∧ pn.left ≠ some y ∧ pn.right = some x)))
    (hroot : xn.parent = none → t.root = some x) :
    (do
      let t1 ← RotateLeft t (some x)
      RotateRight t1 (some y)) = .ok t ∧
    ∀ f, (do
      let t1 ← RotateLeft t (some x)
      let t2 ← RotateRight t1 (some y)
      fingerprint f t2) = fingerprint f t := by
  have hmain : (do
      let t1 ← RotateLeft t (some x)
      RotateRight t1 (some y)) = .ok t := by
    have nyx := nxy.symm
    rcases hyl : yn.left with _ | b
    · rcases hpar : xn.parent with _ | p
      · have hroot2 := hroot hpar
        obtain ⟨xk, xpl, xc, xl, xr, xpar⟩ := xn
        obtain ⟨yk, ypl, yc, yl, yr, ypar⟩ := yn
        simp only at hxr hyparent hyl hpar
        subst hxr hyparent hyl hpar
        simp [RotateLeft, RotateRight, setLeft, setRight, setParent,
          readNode, hx, hy, heap_writeNode_same, heap_writeNode_ne,
          nxy, nyx]
        refine Tree.eq_of_fields (by simp [hroot2]) (fun q => ?_) (by simp)
        rcases eq_or_ne q x with rfl | hqx
        · simp [heap_writeNode_same, heap_writeNode_ne, nxy, hx]
        rcases eq_or_ne q y with rfl | hqy
        · simp [heap_writeNode_same, heap_writeNode_ne, nyx, hy]
        · simp [heap_writeNode_ne, hqx, hqy]
      · obtain ⟨npx, npy, pn, hpn2, hslotd⟩ := hphyp p hpar
        have nxp := npx.symm
        have nyp := npy.symm
        rcases hslotd with hslot | ⟨hlnx, hlny, hrx⟩
        · obtain ⟨xk, xpl, xc, xl, xr, xpar⟩ := xn
          obtain ⟨yk, ypl, yc, yl, yr, ypar⟩ := yn
          obtain ⟨pk, ppl, pc, pl, pr, ppar⟩ := pn
          simp only at hxr hyparent hyl hpar hslot
          subst hxr hyparent hyl hpar hslot
          simp [RotateLeft, RotateRight, setLeft, setRight, setParent,
            readNode, hx, hy, hpn2, heap_writeNode_same, heap_writeNode_ne,
            nxy, nyx, nxp, nyp, npx, npy]
          refine Tree.eq_of_fields (by simp) (fun q => ?_) (by simp)
          rcases eq_or_ne q x with rfl | hqx
          · simp [heap_writeNode_same, heap_writeNode_ne, nxy, nxp, hx]
          rcases eq_or_ne q y with rfl | hqy
          · simp [heap_writeNode_same, heap_writeNode_ne, nyx, nyp, hy]
          rcases eq_or_ne q p with rfl | hqp
          · simp [heap_writeNode_same, heap_writeNode_ne, npx, npy, hpn2]
          · simp [heap_writeNode_ne, hqx, hqy, hqp]
        · obtain ⟨xk, xpl, xc, xl, xr, xpar⟩ := xn
          obtain ⟨yk, ypl, yc, yl, yr, ypar⟩ := yn
          obtain ⟨pk, ppl, pc, pl, pr, ppar⟩ := pn
          simp only at hxr hyparent hyl hpar hlnx hlny hrx
          subst hxr hyparent hyl hpar hrx
          simp [RotateLeft, RotateRight, setLeft, setRight, setParent,
            readNode, hx, hy, hpn2, heap_writeNode_same, heap_writeNode_ne,
            nxy, nyx, nxp, nyp, npx, npy, hlnx, hlny]
          refine Tree.eq_of_fields (by simp) (fun q => ?_) (by simp)
          rcases eq_or_ne q x with rfl | hqx
          · simp [heap_writeNode_same, heap_writeNode_ne, nxy, nxp, hx]
          rcases eq_or_ne q y with rfl | hqy
          · simp [heap_writeNode_same, heap_writeNode_ne, nyx, nyp, hy]
          rcases eq_or_ne q p with rfl | hqp
          · simp [heap_writeNode_same, heap_writeNode_ne, npx, npy, hpn2]
          · simp [heap_writeNode_ne, hqx, hqy, hqp]
    · obtain ⟨nbx, nby, hbpall, bn, hb2, hbp⟩ := hbhyp b hyl
      have nxb := nbx.symm
      have nyb := nby.symm
      rcases hpar : xn.parent with _ | p
      · have hroot2 := hroot hpar
        obtain ⟨xk, xpl, xc, xl, xr, xpar⟩ := xn
        obtain ⟨yk, ypl, yc, yl, yr, ypar⟩ := yn
        obtain ⟨bk, bpl, bc, bl, br, bpar⟩ := bn
        simp only at hxr hyparent hyl hbp hpar
        subst hxr hyparent hyl hbp hpar
        simp [RotateLeft, RotateRight, setLeft, setRight, setParent,
          readNode, hx, hy, hb2, heap_writeNode_same, heap_writeNode_ne,
          nxy, nyx, nxb, nyb, nbx, nby]
        refine Tree.eq_of_fields (by simp [hroot2]) (fun q => ?_) (by simp)
        rcases eq_or_ne q x with rfl | hqx
        · simp [heap_writeNode_same, heap_writeNode_ne, nxy, nxb, hx]
        rcases eq_or_ne q y with rfl | hqy
        · simp [heap_writeNode_same, heap_writeNode_ne, nyx, nyb, hy]
        rcases eq_or_ne q b with rfl | hqb
        · simp [heap_writeNode_same, heap_writeNode_ne, nbx, nby, hb2]
        · simp [heap_writeNode_ne, hqx, hqy, hqb]
      · obtain ⟨npx, npy, pn, hpn2, hslotd⟩ := hphyp p hpar
        have nbp := hbpall p hpar
        have nxp := npx.symm
        have nyp := npy.symm
        have npb := nbp.symm
        rcases hslotd with hslot | ⟨hlnx, hlny, hrx⟩
        · obtain ⟨xk, xpl, xc, xl, xr, xpar⟩ := xn
          obtain ⟨yk, ypl, yc, yl, yr, ypar⟩ := yn
          obtain ⟨bk, bpl, bc, bl, br, bpar⟩ := bn
          obtain ⟨pk, ppl, pc, pl, pr, ppar⟩ := pn
          simp only at hxr hyparent hyl hbp hpar hslot
          subst hxr hyparent hyl hbp hpar hslot
          simp [RotateLeft, RotateRight, setLeft, setRight, setParent,
            readNode, hx, hy, hb2, hpn2, heap_writeNode_same,
            heap_writeNode_ne,
            nxy, nxb, nxp, nyb, nyp, nbp, nyx, nbx, npx, nby, npy, npb]
          refine Tree.eq_of_fields (by simp) (fun q => ?_) (by simp)
          rcases eq_or_ne q x with rfl | hqx
          · simp [heap_writeNode_same, heap_writeNode_ne, nxy, nxb, nxp, hx]
          rcases eq_or_ne q y with rfl | hqy
          · simp [heap_writeNode_same, heap_writeNode_ne, nyx, nyb, nyp, hy]
          rcases eq_or_ne q b with rfl | hqb
          · simp [heap_writeNode_same, heap_writeNode_ne, nbx, nby, nbp, hb2]
          rcases eq_or_ne q p with rfl | hqp
          · simp [heap_writeNode_same, heap_writeNode_ne, npx, npy, npb, hpn2]
          · simp [heap_writeNode_ne, hqx, hqy, hqb, hqp]
        · obtain ⟨xk, xpl, xc, xl, xr, xpar⟩ := xn
          obtain ⟨yk, ypl, yc, yl, yr, ypar⟩ := yn
          obtain ⟨bk, bpl, bc, bl, br, bpar⟩ := bn
          obtain ⟨pk, ppl, pc, pl, pr, ppar⟩ := pn
          simp only at hxr hyparent hyl hbp hpar hlnx hlny hrx
          subst hxr hyparent hyl hbp hpar hrx
          simp [RotateLeft, RotateRight, setLeft, setRight, setParent,
            readNode, hx, hy, hb2, hpn2, heap_writeNode_same,
            heap_writeNode_ne,
            nxy, nxb, nxp, nyb, nyp, nbp, nyx, nbx, npx, nby, npy, npb,
            hlnx, hlny]
          refine Tree.eq_of_fields (by simp) (fun q => ?_) (by simp)
          rcases eq_or_ne q x with rfl | hqx
          · simp [heap_writeNode_same, heap_writeNode_ne, nxy, nxb, nxp, hx]
          rcases eq_or_ne q y with rfl | hqy
          · simp [heap_writeNode_same, heap_writeNode_ne, nyx, nyb, nyp, hy]
          rcases eq_or_ne q b with rfl | hqb
          · simp [heap_writeNode_same, heap_writeNode_ne, nbx, nby, nbp, hb2]
          rcases eq_or_ne q p with rfl | hqp
          · simp [heap_writeNode_same, heap_writeNode_ne, npx, npy, npb, hpn2]
          · simp [heap_writeNode_ne, hqx, hqy, hqb, hqp]
  refine ⟨hmain, fun f => ?_⟩
  cases hRL : RotateLeft t (some x) with
  | ok t1 =>
    rw [hRL] at hmain
    simp only [Res.ok_bind] at hmain ⊢
    rw [hmain]
    rfl
  | crash => rw [hRL] at hmain; simp at hmain
  | nofuel => rw [hRL] at hmain; simp at hmain

/-- Witness for C7: the root of the concrete three-node tree (address
0, key 7) has the right child at address 2 (key 10); rotating left at
it and right at the pivot restores the state. -/
theorem c7_rotate_left_then_right_restores_witness :
    (do
      let t1 ← RotateLeft tree3 (some 0)
      RotateRight t1 (some 2)) = .ok tree3 ∧
    ∀ f, (do
      let t1 ← RotateLeft tree3 (some 0)
      let t2 ← RotateRight t1 (some 2)
      fingerprint f t2) = fingerprint f tree3 :=
  c7_rotate_left_then_right_restores tree3 0 2
    { key := .vint 7, payload := .vnil, color := BLACK,
      left := some 1, right := some 2, parent := none }
    { key := .vint 10, payload := .vstring "10", color := RED,
      left := none, right := none, parent := some 0 }
    rfl rfl rfl rfl (by decide)
    (fun bb h => Option.noConfusion h)
    (fun pq h => Option.noConfusion h)
    (fun _ => rfl)

end RBGo
